import Mathlib

/-!
Verification of the client-identity resolution subsystem of AdGuardHome
(package dnsforward) and of the DHCP configuration-reset handler (package
dhcpd).  Strings of the Go source are embedded as lists of characters, so
that every operation of the model is an executable structural recursion.
-/

namespace AdGuard

/-- A Go string, embedded as its list of characters. -/
abbrev Str := List Char

namespace DNSForward

/-- Modelled from the spec: the permitted identifier alphabet of the
client-id grammar validator (ASCII letters, digits and hyphen); the
validator implementation is absent from the repository slice, only its
tests are present. -/
def isValidClientIDChar (c : Char) : Bool :=
  ( 'a' ≤ c && c ≤ 'z') || ( 'A' ≤ c && c ≤ 'Z') ||
  ( '0' ≤ c && c ≤ '9') || (c == '-')

/-- Modelled from the spec: the maximum length of a client id. -/
def maxClientIDLen : Nat := 64

/-- The first character of a string that is outside the client-id alphabet,
together with its zero-based index; the first argument is the index of the
head of the list. -/
def firstBadChar (n : Nat) : Str → Option (Nat × Char)
  | [] => none
  | c :: cs =>
    if isValidClientIDChar c then firstBadChar (n + 1) cs else some (n, c)

/-- Modelled from the spec: the client-id grammar validator.  The length
bound is checked first; then the scan stops at the first character outside
the alphabet and reports its literal value and zero-based index.  `none`
means the candidate is accepted; `some reason` carries the diagnostic. -/
def validateClientID (id : Str) : Option Str :=
  if maxClientIDLen < id.length then
    some ( "client id \"".data ++ id ++ "\" is too long, max: ".data ++
      (Nat.repr maxClientIDLen).data)
  else
    match firstBadChar 0 id with
    | none => none
    | some (n, c) =>
      some ( "invalid char \x27".data ++ [c] ++ "\x27 at index ".data ++
        (Nat.repr n).data ++ " in client id \"".data ++ id ++ "\"".data)

/-- Whether the first string is a leading segment of the second. -/
def hasPfx : Str → Str → Bool
  | [], _ => true
  | _ :: _, [] => false
  | p :: ps, c :: cs => p == c && hasPfx ps cs

/-- Split a string at its first dot: the dot-free part before it and the
part after it, or `none` when the string has no dot. -/
def splitDot : Str → Option (Str × Str)
  | [] => none
  | c :: cs =>
    if c = '.' then some ([], cs)
    else
      match splitDot cs with
      | some (a, b) => some (c :: a, b)
      | none => none

/-- The wildcard marker that begins a wildcard host server name. -/
def wildMark : Str := "*.".data

/-- The outcome of matching a client-presented server name against the
configured host server name. -/
inductive HostMatch where
  | noIdentity : HostMatch
  | candidate (label : Str) : HostMatch
  | mismatch (reason : Str) : HostMatch
  deriving DecidableEq

/-- The diagnostic for a client server name that does not match a literal
host server name. -/
def litMismatchMsg (hostName cliName : Str) : Str :=
  "client server name \"".data ++ cliName ++
    "\" doesn\x27t match host server name \"".data ++ hostName ++ "\"".data

/-- The diagnostic for a client server name that does not match a wildcard
host server name. -/
def wildMismatchMsg (hostName cliName : Str) : Str :=
  "client server name \"".data ++ cliName ++
    "\" doesn\x27t match host server name wildcard \"".data ++ hostName ++
    "\"".data

/-- Modelled from the spec: the host-name matcher.  A literal host name
matches only the identical client name; a wildcard host name of the form
star-dot-suffix matches the bare suffix with no identity, and matches a
client name made of exactly one extra dot-free label before the suffix by
extracting that label as the candidate client id.  The matcher performs no
grammar validation.  Its implementation is absent from the repository
slice, only its tests are present. -/
def clientIDFromClientServerName (hostName cliName : Str) : HostMatch :=
  if hasPfx wildMark hostName then
    let suffix := hostName.drop 2
    if cliName = suffix then .noIdentity
    else
      match splitDot cliName with
      | some (label, rest) =>
        if rest = suffix ∧ label ≠ [] then .candidate label
        else .mismatch (wildMismatchMsg hostName cliName)
      | none => .mismatch (wildMismatchMsg hostName cliName)
  else if cliName = hostName then .noIdentity
  else .mismatch (litMismatchMsg hostName cliName)

/-- The fixed leading segment of a DNS-over-HTTPS request path. -/
def dnsQueryPath : Str := "/dns-query".data

/-- Remove one trailing slash from a path, when there is one. -/
def stripSlash (p : Str) : Str :=
  match p.getLast? with
  | some c => if c = '/' then p.dropLast else p
  | none => p

/-- Remove the first string from the front of the second, or `none` when it
is not a leading segment of it. -/
def dropPfx : Str → Str → Option Str
  | [], s => some s
  | _ :: _, [] => none
  | p :: ps, c :: cs => if p = c then dropPfx ps cs else none

/-- The outcome of extracting a candidate client id from a DNS-over-HTTPS
request path. -/
inductive PathExtract where
  | noIdentity : PathExtract
  | candidate (seg : Str) : PathExtract
  | invalidPath : PathExtract
  | extraParts : PathExtract
  deriving DecidableEq

/-- Modelled from the spec: the HTTPS path extractor.  After removing one
optional trailing slash the path must be the fixed dns-query segment alone
(no identity) or that segment followed by exactly one more path segment
(the candidate); a path that does not begin with the fixed segment is a
structural error, and more than one extra segment is the extra-parts
structural error.  Its implementation is absent from the repository slice,
only its tests are present. -/
def extractPathClientID (path : Str) : PathExtract :=
  match dropPfx dnsQueryPath (stripSlash path) with
  | none => .invalidPath
  | some [] => .noIdentity
  | some (c :: rest) =>
    if c = '/' then
      if rest = [] then .noIdentity
      else if '/' ∈ rest then .extraParts
      else .candidate rest
    else .invalidPath

/-- The transport protocol of an inbound query. -/
inductive Proto where
  | udp : Proto
  | tcp : Proto
  | tls : Proto
  | quic : Proto
  | dnscrypt : Proto
  | https : Proto
  deriving DecidableEq

/-- The extraction strategy a protocol selects. -/
inductive ExtractKind where
  | noExtraction : ExtractKind
  | tlsServerName : ExtractKind
  | httpsPath : ExtractKind
  deriving DecidableEq

/-- Modelled from the spec: the transport classifier.  Plain UDP and TCP
carry no identity signal; TLS, QUIC and DNSCrypt-style transports expose a
negotiated peer server name; HTTPS exposes a request path. -/
def classifyProto : Proto → ExtractKind
  | .udp => .noExtraction
  | .tcp => .noExtraction
  | .tls => .tlsServerName
  | .quic => .tlsServerName
  | .dnscrypt => .tlsServerName
  | .https => .httpsPath

/-- The TLS part of the server configuration: the configured host server
name, a literal name or a single-level wildcard. -/
structure TLSConfig where
  serverName : Str
  deriving DecidableEq

/-- The slice of the dnsforward server configuration the resolver reads. -/
structure ServerConfig where
  tlsConfig : TLSConfig
  deriving DecidableEq

/-- The transport-specific inputs of a per-query context: the protocol,
the client-presented TLS server name of the connection, and the URL path
of the HTTP request.  Only the field selected by the protocol is ever
read. -/
structure DNSContext where
  proto : Proto
  cliServerName : Str
  httpPath : Str
  deriving DecidableEq

/-- The result marker a pipeline step returns. -/
inductive ResultCode where
  | success : ResultCode
  | error : ResultCode
  deriving DecidableEq

/-- What one invocation of the resolver writes into the per-query context:
the returned result code, the client id and the failure value. -/
structure ProcResult where
  rc : ResultCode
  clientID : Str
  err : Option Str
  deriving DecidableEq

/-- The tag every failure of this pipeline step carries. -/
def clientIDCheck (reason : Str) : Str := "client id check: ".data ++ reason

/-- The extra tag a grammar-validation failure carries. -/
def invalidClientIDMsg (reason : Str) : Str :=
  "invalid client id: ".data ++ reason

/-- The structural-error diagnostic for a path outside the grammar. -/
def invalidPathMsg (path : Str) : Str :=
  "invalid path \"".data ++ path ++ "\"".data

/-- The structural-error diagnostic for a path with excess segments. -/
def extraPartsMsg (path : Str) : Str :=
  "invalid path \"".data ++ path ++ "\": extra parts".data

/-- Modelled from the spec: the client-identity resolver, one pipeline
step.  It classifies the transport, pulls the transport-specific signal,
runs the matching extractor, validates any extracted candidate, and
produces the result code together with the client id and failure value it
writes into the context.  Its implementation is absent from the repository
slice, only its tests are present. -/
def processClientID (conf : ServerConfig) (pctx : DNSContext) : ProcResult :=
  match classifyProto pctx.proto with
  | .noExtraction => ⟨.success, [], none⟩
  | .tlsServerName =>
    match clientIDFromClientServerName conf.tlsConfig.serverName
        pctx.cliServerName with
    | .noIdentity => ⟨.success, [], none⟩
    | .mismatch reason => ⟨.error, [], some (clientIDCheck reason)⟩
    | .candidate label =>
      match validateClientID label with
      | none => ⟨.success, label, none⟩
      | some reason =>
        ⟨.error, [], some (clientIDCheck (invalidClientIDMsg reason))⟩
  | .httpsPath =>
    match extractPathClientID pctx.httpPath with
    | .noIdentity => ⟨.success, [], none⟩
    | .invalidPath =>
      ⟨.error, [], some (clientIDCheck (invalidPathMsg pctx.httpPath))⟩
    | .extraParts =>
      ⟨.error, [], some (clientIDCheck (extraPartsMsg pctx.httpPath))⟩
    | .candidate seg =>
      match validateClientID seg with
      | none => ⟨.success, seg, none⟩
      | some reason =>
        ⟨.error, [], some (clientIDCheck (invalidClientIDMsg reason))⟩

end DNSForward

namespace DHCP

/-- The DHCPv4 sub-server configuration, with the fields the HTTP handlers
of dhcphttp.go read and write; IP addresses and callbacks are opaque here.
Its declaration is outside the repository slice, so the field set is
modelled from its uses in dhcphttp.go. -/
structure V4ServerConf where
  enabled : Bool
  interfaceName : Str
  gatewayIP : Str
  subnetMask : Str
  rangeStart : Str
  rangeEnd : Str
  leaseDuration : Nat
  icmpTimeout : Nat
  notify : Option Nat
  deriving DecidableEq

/-- The Go zero value of the DHCPv4 sub-server configuration. -/
def V4ServerConf.zero : V4ServerConf := ⟨false, [], [], [], [], [], 0, 0, none⟩

/-- The DHCPv6 sub-server configuration; declaration outside the slice,
field set modelled from its uses in dhcphttp.go. -/
structure V6ServerConf where
  enabled : Bool
  interfaceName : Str
  rangeStart : Str
  leaseDuration : Nat
  notify : Option Nat
  deriving DecidableEq

/-- The Go zero value of the DHCPv6 sub-server configuration. -/
def V6ServerConf.zero : V6ServerConf := ⟨false, [], [], 0, none⟩

/-- A created DHCPv4 sub-server, identified by the configuration it was
created from; lease state is irrelevant to the reset handler. -/
structure Srv4 where
  conf : V4ServerConf
  deriving DecidableEq

/-- Creation of a DHCPv4 sub-server from a configuration. -/
def v4Create (conf : V4ServerConf) : Srv4 := ⟨conf⟩

/-- A created DHCPv6 sub-server, identified by the configuration it was
created from. -/
structure Srv6 where
  conf : V6ServerConf
  deriving DecidableEq

/-- Creation of a DHCPv6 sub-server from a configuration. -/
def v6Create (conf : V6ServerConf) : Srv6 := ⟨conf⟩

/-- The dhcpd server configuration.  Its declaration is outside the
repository slice, so the field set is modelled from its uses in
dhcphttp.go: Enabled, InterfaceName, WorkDir, DBFilePath, and the two
callbacks HTTPRegister and ConfigModified, kept as opaque handles. -/
structure ServerConfig where
  enabled : Bool
  interfaceName : Str
  workDir : Str
  dbFilePath : Str
  httpRegister : Option Nat
  configModified : Option Nat
  deriving DecidableEq

/-- The Go zero value of the dhcpd server configuration. -/
def ServerConfig.zero : ServerConfig := ⟨false, [], [], [], none, none⟩

/-- The dhcpd server state the reset handler touches. -/
structure Server where
  conf : ServerConfig
  srv4 : Srv4
  srv6 : Srv6
  onNotify : Option Nat
  deriving DecidableEq

/-- The reset handler handleReset of dhcphttp.go, as a state transformer
on the server: it replaces the configuration with a zero configuration in
which WorkDir, HTTPRegister, ConfigModified and DBFilePath keep their old
values, and installs fresh v4 and v6 sub-servers created from zero
configurations carrying only an ICMP timeout of 1000 (v4) and the server
notify callback.  Stopping the old sub-servers, removing the lease
database file and invoking ConfigModified are external effects outside
this state. -/
def handleReset (s : Server) : Server :=
  let oldconf := s.conf
  let conf : ServerConfig :=
    { ServerConfig.zero with
      workDir := oldconf.workDir
      httpRegister := oldconf.httpRegister
      configModified := oldconf.configModified
      dbFilePath := oldconf.dbFilePath }
  let v4conf : V4ServerConf :=
    { V4ServerConf.zero with
      icmpTimeout := 1000
      notify := s.onNotify }
  let v6conf : V6ServerConf :=
    { V6ServerConf.zero with notify := s.onNotify }
  { s with conf := conf, srv4 := v4Create v4conf, srv6 := v6Create v6conf }

end DHCP

namespace DNSForward

theorem hasPfx_iff (p s : Str) : hasPfx p s = true ↔ ∃ t, s = p ++ t := by
  induction p generalizing s with
  | nil => simp [hasPfx]
  | cons a ps ih =>
    cases s with
    | nil => simp [hasPfx]
    | cons c cs =>
      simp only [hasPfx, Bool.and_eq_true, beq_iff_eq, List.cons_append,
        List.cons.injEq, ih]
      constructor
      · rintro ⟨rfl, t, rfl⟩
        exact ⟨t, rfl, rfl⟩
      · rintro ⟨t, rfl, rfl⟩
        exact ⟨rfl, t, rfl⟩

theorem dropPfx_eq_some_iff (p s t : Str) :
    dropPfx p s = some t ↔ s = p ++ t := by
  induction p generalizing s with
  | nil => simp [dropPfx, eq_comm]
  | cons a ps ih =>
    cases s with
    | nil => simp [dropPfx]
    | cons c cs =>
      by_cases hac : a = c
      · subst hac
        simp [dropPfx, ih]
      · simp [dropPfx, hac, Ne.symm hac]

theorem dropPfx_eq_none_iff (p s : Str) :
    dropPfx p s = none ↔ ∀ t, s ≠ p ++ t := by
  cases hd : dropPfx p s with
  | none =>
    simp only [true_iff]
    intro t ht
    rw [← dropPfx_eq_some_iff p s t] at ht
    rw [hd] at ht
    exact Option.noConfusion ht
  | some t =>
    constructor
    · intro h
      exact Option.noConfusion h
    · intro h
      exact absurd ((dropPfx_eq_some_iff p s t).mp hd) (h t)

theorem stripSlash_concat_slash (p : Str) : stripSlash (p ++ [ '/']) = p := by
  unfold stripSlash
  rw [List.getLast?_concat]
  simp [List.dropLast_concat]

theorem stripSlash_of_getLast_ne (p : Str) (h : p.getLast? ≠ some '/') :
    stripSlash p = p := by
  unfold stripSlash
  cases hl : p.getLast? with
  | none => rfl
  | some c =>
    rw [hl] at h
    have hc : ¬c = '/' := fun hcc => h (by rw [hcc])
    simp [hc]

theorem stripSlash_cases (p : Str) :
    stripSlash p = p ∨ p = stripSlash p ++ [ '/'] := by
  unfold stripSlash
  cases hl : p.getLast? with
  | none => exact Or.inl rfl
  | some c =>
    by_cases hc : c = '/'
    · subst hc
      simp only [if_pos rfl]
      exact Or.inr (List.dropLast_append_getLast? _ hl).symm
    · simp [hc]

theorem splitDot_eq_some (s a b : Str) (h : splitDot s = some (a, b)) :
    s = a ++ '.' :: b ∧ '.' ∉ a := by
  induction s generalizing a with
  | nil => simp [splitDot] at h
  | cons c cs ih =>
    by_cases hc : c = '.'
    · subst hc
      simp only [splitDot, if_pos rfl, Option.some.injEq, Prod.mk.injEq] at h
      obtain ⟨rfl, rfl⟩ := h
      simp
    · simp only [splitDot, if_neg hc] at h
      cases hs : splitDot cs with
      | none => rw [hs] at h; exact Option.noConfusion h
      | some ab =>
        obtain ⟨a0, b0⟩ := ab
        rw [hs] at h
        simp only [Option.some.injEq, Prod.mk.injEq] at h
        obtain ⟨ha, hb⟩ := h
        subst hb
        obtain ⟨h1, h2⟩ := ih a0 hs
        subst ha
        subst h1
        refine ⟨rfl, ?_⟩
        simp only [List.mem_cons, not_or]
        exact ⟨fun hdc => hc hdc.symm, h2⟩

theorem splitDot_eq_none_iff (s : Str) : splitDot s = none ↔ '.' ∉ s := by
  induction s with
  | nil => simp [splitDot]
  | cons c cs ih =>
    by_cases hc : c = '.'
    · subst hc
      simp [splitDot]
    · cases hs : splitDot cs with
      | none =>
        rw [hs] at ih
        simp [splitDot, hc, hs, Ne.symm hc, ← ih]
      | some ab =>
        obtain ⟨a0, b0⟩ := ab
        obtain ⟨hcs, -⟩ := splitDot_eq_some cs a0 b0 hs
        simp only [splitDot, if_neg hc, hs]
        constructor
        · intro h
          exact Option.noConfusion h
        · intro h
          exact absurd (by rw [hcs]; simp) h

theorem splitDot_append (a b : Str) (ha : '.' ∉ a) :
    splitDot (a ++ '.' :: b) = some (a, b) := by
  induction a with
  | nil => simp [splitDot]
  | cons c cs ih =>
    simp only [List.mem_cons, not_or] at ha
    have hc : ¬c = '.' := fun hcd => ha.1 hcd.symm
    simp only [List.cons_append, splitDot, if_neg hc, List.append_eq, ih ha.2]


theorem firstBadChar_eq_none_iff (n : Nat) (s : Str) :
    firstBadChar n s = none ↔ ∀ c ∈ s, isValidClientIDChar c = true := by
  induction s generalizing n with
  | nil => simp [firstBadChar]
  | cons c cs ih =>
    by_cases hc : isValidClientIDChar c = true
    · simp [firstBadChar, hc, ih]
    · simp only [firstBadChar, if_neg hc]
      constructor
      · intro h
        exact Option.noConfusion h
      · intro h
        exact absurd (h c (List.mem_cons_self c cs)) hc

theorem firstBadChar_append (n : Nat) (a : Str) (c : Char) (b : Str)
    (ha : ∀ d ∈ a, isValidClientIDChar d = true)
    (hc : isValidClientIDChar c = false) :
    firstBadChar n (a ++ c :: b) = some (n + a.length, c) := by
  induction a generalizing n with
  | nil => simp [firstBadChar, hc]
  | cons d ds ih =>
    have hd : isValidClientIDChar d = true := ha d (List.mem_cons_self d ds)
    simp only [List.cons_append, firstBadChar, if_pos hd, List.append_eq]
    rw [ih (n + 1) (fun e he => ha e (List.mem_cons_of_mem d he))]
    have hn : n + 1 + ds.length = n + (d :: ds).length := by
      simp [List.length_cons]
      omega
    rw [hn]

theorem validateClientID_eq_none_iff (id : Str) :
    validateClientID id = none ↔
      id.length ≤ maxClientIDLen ∧ ∀ c ∈ id, isValidClientIDChar c = true := by
  unfold validateClientID
  by_cases hl : maxClientIDLen < id.length
  · rw [if_pos hl]
    constructor
    · intro h
      exact Option.noConfusion h
    · intro h
      exact absurd hl (Nat.not_lt.mpr h.1)
  · rw [if_neg hl]
    cases hb : firstBadChar 0 id with
    | none =>
      rw [firstBadChar_eq_none_iff] at hb
      constructor
      · intro _
        exact ⟨Nat.not_lt.mp hl, hb⟩
      · intro _
        rfl
    | some ic =>
      obtain ⟨i, c⟩ := ic
      constructor
      · intro h
        exact Option.noConfusion h
      · intro h
        have hn := (firstBadChar_eq_none_iff 0 id).mpr h.2
        rw [hn] at hb
        exact Option.noConfusion hb

theorem validateClientID_of_long (id : Str) (h : maxClientIDLen < id.length) :
    validateClientID id =
      some ( "client id \"".data ++ id ++ "\" is too long, max: 64".data) := by
  unfold validateClientID
  rw [if_pos h, List.append_assoc]
  rfl

theorem validateClientID_firstBad (a : Str) (c : Char) (b : Str)
    (ha : ∀ d ∈ a, isValidClientIDChar d = true)
    (hc : isValidClientIDChar c = false)
    (hl : (a ++ c :: b).length ≤ maxClientIDLen) :
    validateClientID (a ++ c :: b) =
      some ( "invalid char \x27".data ++ [c] ++ "\x27 at index ".data ++
        (Nat.repr a.length).data ++ " in client id \"".data ++
        (a ++ c :: b) ++ "\"".data) := by
  unfold validateClientID
  rw [if_neg (by omega), firstBadChar_append 0 a c b ha hc]
  rw [Nat.zero_add]

theorem matchWildcard_eq (suffix cliName : Str) :
    clientIDFromClientServerName ( '*' :: '.' :: suffix) cliName =
      (if cliName = suffix then .noIdentity
       else
         match splitDot cliName with
         | some (label, rest) =>
           if rest = suffix ∧ label ≠ [] then .candidate label
           else .mismatch (wildMismatchMsg ( '*' :: '.' :: suffix) cliName)
         | none => .mismatch (wildMismatchMsg ( '*' :: '.' :: suffix) cliName)) :=
  rfl

theorem matchLiteral_eq (hostName cliName : Str)
    (h : hasPfx wildMark hostName = false) :
    clientIDFromClientServerName hostName cliName =
      (if cliName = hostName then .noIdentity
       else .mismatch (litMismatchMsg hostName cliName)) := by
  unfold clientIDFromClientServerName
  rw [if_neg (by rw [h]; exact Bool.false_ne_true)]

theorem processClientID_tls_eq (conf : ServerConfig) (sni path : Str) :
    processClientID conf ⟨Proto.tls, sni, path⟩ =
      (match clientIDFromClientServerName conf.tlsConfig.serverName sni with
       | .noIdentity => ⟨ResultCode.success, [], none⟩
       | .mismatch reason => ⟨ResultCode.error, [], some (clientIDCheck reason)⟩
       | .candidate label =>
         match validateClientID label with
         | none => ⟨ResultCode.success, label, none⟩
         | some reason =>
           ⟨ResultCode.error, [],
             some (clientIDCheck (invalidClientIDMsg reason))⟩) :=
  rfl

theorem processClientID_https_eq (conf : ServerConfig) (sni path : Str) :
    processClientID conf ⟨Proto.https, sni, path⟩ =
      (match extractPathClientID path with
       | .noIdentity => ⟨ResultCode.success, [], none⟩
       | .invalidPath =>
         ⟨ResultCode.error, [], some (clientIDCheck (invalidPathMsg path))⟩
       | .extraParts =>
         ⟨ResultCode.error, [], some (clientIDCheck (extraPartsMsg path))⟩
       | .candidate seg =>
         match validateClientID seg with
         | none => ⟨ResultCode.success, seg, none⟩
         | some reason =>
           ⟨ResultCode.error, [],
             some (clientIDCheck (invalidClientIDMsg reason))⟩) :=
  rfl


theorem processClientID_quic_eq_tls (conf : ServerConfig) (sni path : Str) :
    processClientID conf ⟨Proto.quic, sni, path⟩ =
      processClientID conf ⟨Proto.tls, sni, path⟩ :=
  rfl

theorem processClientID_dnscrypt_eq_tls (conf : ServerConfig)
    (sni path : Str) :
    processClientID conf ⟨Proto.dnscrypt, sni, path⟩ =
      processClientID conf ⟨Proto.tls, sni, path⟩ :=
  rfl

theorem processClientID_shape (conf : ServerConfig) (pctx : DNSContext) :
    (∃ cid, processClientID conf pctx = ⟨ResultCode.success, cid, none⟩) ∨
    (∃ msg, processClientID conf pctx = ⟨ResultCode.error, [], some msg⟩) := by
  obtain ⟨proto, sni, path⟩ := pctx
  have htls : (∃ cid, processClientID conf ⟨Proto.tls, sni, path⟩ =
      ⟨ResultCode.success, cid, none⟩) ∨
      (∃ msg, processClientID conf ⟨Proto.tls, sni, path⟩ =
        ⟨ResultCode.error, [], some msg⟩) := by
    rw [processClientID_tls_eq]
    cases clientIDFromClientServerName conf.tlsConfig.serverName sni with
    | noIdentity => exact Or.inl ⟨[], rfl⟩
    | mismatch reason => exact Or.inr ⟨_, rfl⟩
    | candidate label =>
      dsimp only
      cases validateClientID label with
      | none => exact Or.inl ⟨label, rfl⟩
      | some reason => exact Or.inr ⟨_, rfl⟩
  cases proto
  case udp => exact Or.inl ⟨[], rfl⟩
  case tcp => exact Or.inl ⟨[], rfl⟩
  case tls => exact htls
  case quic => rw [processClientID_quic_eq_tls]; exact htls
  case dnscrypt => rw [processClientID_dnscrypt_eq_tls]; exact htls
  case https =>
    rw [processClientID_https_eq]
    cases extractPathClientID path with
    | noIdentity => exact Or.inl ⟨[], rfl⟩
    | invalidPath => exact Or.inr ⟨_, rfl⟩
    | extraParts => exact Or.inr ⟨_, rfl⟩
    | candidate seg =>
      dsimp only
      cases validateClientID seg with
      | none => exact Or.inl ⟨seg, rfl⟩
      | some reason => exact Or.inr ⟨_, rfl⟩

/-- Claim C3: for every query whose protocol carries no identity-bearing
signal (in particular plain UDP and plain TCP), resolution yields Success
with empty client id and no error, for every configuration and every
value of the transport signals. -/
theorem processClientID_no_signal (conf : ServerConfig) (proto : Proto)
    (sni path : Str) :
    (classifyProto proto = ExtractKind.noExtraction →
      processClientID conf ⟨proto, sni, path⟩ =
        ⟨ResultCode.success, [], none⟩) ∧
    processClientID conf ⟨Proto.udp, sni, path⟩ =
      ⟨ResultCode.success, [], none⟩ ∧
    processClientID conf ⟨Proto.tcp, sni, path⟩ =
      ⟨ResultCode.success, [], none⟩ := by
  refine ⟨?_, rfl, rfl⟩
  intro h
  cases proto
  case udp => rfl
  case tcp => rfl
  case tls => exact absurd h (by decide)
  case quic => exact absurd h (by decide)
  case dnscrypt => exact absurd h (by decide)
  case https => exact absurd h (by decide)

/-- Claim C8: after every invocation of the resolver, the failure value is
present exactly when the result code is Error, and the client id is
non-empty only on Success; every Error outcome leaves the client id
empty. -/
theorem processClientID_err_iff_error (conf : ServerConfig)
    (pctx : DNSContext) :
    ((processClientID conf pctx).err ≠ none ↔
      (processClientID conf pctx).rc = ResultCode.error) ∧
    ((processClientID conf pctx).rc = ResultCode.error →
      (processClientID conf pctx).clientID = []) ∧
    ((processClientID conf pctx).clientID ≠ [] →
      (processClientID conf pctx).rc = ResultCode.success) := by
  obtain ⟨cid, hres⟩ | ⟨msg, hres⟩ := processClientID_shape conf pctx
  · rw [hres]
    exact ⟨by simp, by simp, fun _ => rfl⟩
  · rw [hres]
    refine ⟨by simp, fun _ => rfl, fun hne => absurd rfl hne⟩

/-- Claim C9: for HTTPS queries the result depends only on the request
path: two invocations with the same path but different configurations and
different TLS server names produce identical results. -/
theorem processClientID_https_path_only (conf1 conf2 : ServerConfig)
    (sni1 sni2 path : Str) :
    processClientID conf1 ⟨Proto.https, sni1, path⟩ =
      processClientID conf2 ⟨Proto.https, sni2, path⟩ :=
  rfl


/-- Claim C2: for a literal (non-wildcard) configured host name and a
TLS-bearing query, resolution yields Success with empty client id exactly
when the client-presented server name equals the configured name, and for
every other client name yields Error with the literal mismatch
diagnostic. -/
theorem processClientID_tls_literal (hostName cliName path : Str)
    (hw : hasPfx wildMark hostName = false) :
    (processClientID ⟨⟨hostName⟩⟩ ⟨Proto.tls, cliName, path⟩ =
        ⟨ResultCode.success, [], none⟩ ↔ cliName = hostName) ∧
    (cliName ≠ hostName →
      processClientID ⟨⟨hostName⟩⟩ ⟨Proto.tls, cliName, path⟩ =
        ⟨ResultCode.error, [],
          some ( "client id check: client server name \"".data ++ cliName ++
            "\" doesn\x27t match host server name \"".data ++ hostName ++
            "\"".data)⟩) := by
  rw [processClientID_tls_eq, matchLiteral_eq hostName cliName hw]
  by_cases he : cliName = hostName
  · rw [if_pos he]
    exact ⟨⟨fun _ => he, fun _ => rfl⟩, fun hne => absurd he hne⟩
  · rw [if_neg he]
    refine ⟨⟨fun hcontra => ?_, fun heq => absurd heq he⟩, fun _ => rfl⟩
    exact ResultCode.noConfusion (congrArg ProcResult.rc hcontra)

/-- Witness for claim C2 at the literal host example.com and the client
name cli.example.com, matching the tls_no_wildcard_error test case. -/
theorem processClientID_tls_literal_witness :
    processClientID ⟨⟨ "example.com".data⟩⟩
        ⟨Proto.tls, "cli.example.com".data, []⟩ =
      ⟨ResultCode.error, [],
        some ( "client id check: client server name \"cli.example.com\" doesn\x27t match host server name \"example.com\"".data)⟩ := by
  have h := processClientID_tls_literal ( "example.com".data)
    ( "cli.example.com".data) [] (by decide)
  exact h.2 (by decide)


theorem processClientID_wildcard_noid (suffix cliName path : Str)
    (he : cliName = suffix) :
    processClientID ⟨⟨ '*' :: '.' :: suffix⟩⟩ ⟨Proto.tls, cliName, path⟩ =
      ⟨ResultCode.success, [], none⟩ := by
  rw [processClientID_tls_eq, matchWildcard_eq, if_pos he]

theorem processClientID_wildcard_label (suffix label path : Str)
    (hne : label ≠ []) (hdot : '.' ∉ label) :
    processClientID ⟨⟨ '*' :: '.' :: suffix⟩⟩
        ⟨Proto.tls, label ++ '.' :: suffix, path⟩ =
      (match validateClientID label with
       | none => ⟨ResultCode.success, label, none⟩
       | some reason =>
         ⟨ResultCode.error, [],
           some (clientIDCheck (invalidClientIDMsg reason))⟩) := by
  have hcs : label ++ '.' :: suffix ≠ suffix := by
    intro habs
    have hlen := congrArg List.length habs
    simp only [List.length_append, List.length_cons] at hlen
    omega
  rw [processClientID_tls_eq, matchWildcard_eq, if_neg hcs,
    splitDot_append label suffix hdot]
  dsimp only
  rw [if_pos ⟨rfl, hne⟩]

theorem processClientID_wildcard_mismatch (suffix cliName path : Str)
    (hne : cliName ≠ suffix)
    (hnl : ∀ label,
      label = [] ∨ '.' ∈ label ∨ cliName ≠ label ++ '.' :: suffix) :
    processClientID ⟨⟨ '*' :: '.' :: suffix⟩⟩ ⟨Proto.tls, cliName, path⟩ =
      ⟨ResultCode.error, [],
        some (clientIDCheck
          (wildMismatchMsg ( '*' :: '.' :: suffix) cliName))⟩ := by
  rw [processClientID_tls_eq, matchWildcard_eq, if_neg hne]
  cases hs : splitDot cliName with
  | none => rfl
  | some ab =>
    obtain ⟨label, rest⟩ := ab
    obtain ⟨hdecomp, hdot⟩ := splitDot_eq_some cliName label rest hs
    have hcond : ¬(rest = suffix ∧ label ≠ []) := by
      rintro ⟨hrest, hlabel⟩
      subst hrest
      rcases hnl label with h | h | h
      · exact hlabel h
      · exact hdot h
      · exact h hdecomp
    dsimp only
    rw [if_neg hcond]

/-- Claim C1, amended: for a wildcard host name star-dot-suffix and a
TLS-bearing query, a client name equal to the suffix succeeds with empty
client id; a client name made of exactly one extra non-empty dot-free
label before dot-suffix succeeds with that label as client id when the
label passes grammar validation, and fails with the invalid-client-id
diagnostic made from the validator reason when it does not; every client
name of neither form fails with the wildcard mismatch diagnostic. -/
theorem processClientID_tls_wildcard (suffix cliName path : Str) :
    ((cliName = suffix →
       processClientID ⟨⟨ '*' :: '.' :: suffix⟩⟩ ⟨Proto.tls, cliName, path⟩ =
         ⟨ResultCode.success, [], none⟩) ∧
     (∀ label, label ≠ [] → '.' ∉ label → cliName = label ++ '.' :: suffix →
       (validateClientID label = none →
         processClientID ⟨⟨ '*' :: '.' :: suffix⟩⟩
             ⟨Proto.tls, cliName, path⟩ =
           ⟨ResultCode.success, label, none⟩) ∧
       (∀ reason, validateClientID label = some reason →
         processClientID ⟨⟨ '*' :: '.' :: suffix⟩⟩
             ⟨Proto.tls, cliName, path⟩ =
           ⟨ResultCode.error, [],
             some ( "client id check: invalid client id: ".data ++
               reason)⟩)) ∧
     (cliName ≠ suffix →
       (∀ label,
         label = [] ∨ '.' ∈ label ∨ cliName ≠ label ++ '.' :: suffix) →
       processClientID ⟨⟨ '*' :: '.' :: suffix⟩⟩ ⟨Proto.tls, cliName, path⟩ =
         ⟨ResultCode.error, [],
           some ( "client id check: client server name \"".data ++
             cliName ++
             "\" doesn\x27t match host server name wildcard \"".data ++
             ( '*' :: '.' :: suffix) ++ "\"".data)⟩)) := by
  refine ⟨fun he => processClientID_wildcard_noid suffix cliName path he,
    ?_, ?_⟩
  · intro label hne hdot hdecomp
    subst hdecomp
    constructor
    · intro hv
      rw [processClientID_wildcard_label suffix label path hne hdot, hv]
    · intro reason hv
      rw [processClientID_wildcard_label suffix label path hne hdot, hv]
      rfl
  · intro hne hnl
    rw [processClientID_wildcard_mismatch suffix cliName path hne hnl]
    rfl

/-- Counterexample to claim C1 as stated: for the wildcard host name
star-dot-example.com and a client name whose single extra label of three
exclamation marks fails grammar validation, the resolver reports the
invalid-client-id diagnostic, which differs from the wildcard mismatch
diagnostic the claim requires for every client name other than its two
success forms. -/
theorem processClientID_tls_wildcard_cex :
    processClientID ⟨⟨ "*.example.com".data⟩⟩
        ⟨Proto.tls, "!!!.example.com".data, []⟩ =
      ⟨ResultCode.error, [],
        some ( "client id check: invalid client id: invalid char \x27!\x27 at index 0 in client id \"!!!\"".data)⟩ ∧
    ( "client id check: invalid client id: invalid char \x27!\x27 at index 0 in client id \"!!!\"".data ≠
      "client id check: client server name \"!!!.example.com\" doesn\x27t match host server name wildcard \"*.example.com\"".data) :=
  ⟨by decide, by decide⟩


/-- Claim C4: the grammar validator accepts a non-empty candidate exactly
when every character is an ASCII letter, digit or hyphen and the length is
at most 64; a candidate within the length bound that violates the
character set is rejected at its first violating character with the
invalid-char diagnostic carrying that character and its zero-based index;
in particular the resolver reports the stated diagnostic for the wildcard
client name with the candidate of three exclamation marks. -/
theorem validateClientID_charset (id : Str) (hne : id ≠ []) :
    (validateClientID id = none ↔
      id.length ≤ 64 ∧ ∀ c ∈ id, isValidClientIDChar c = true) ∧
    (∀ a c b, id = a ++ c :: b →
      (∀ d ∈ a, isValidClientIDChar d = true) →
      isValidClientIDChar c = false → id.length ≤ 64 →
      validateClientID id =
        some ( "invalid char \x27".data ++ [c] ++ "\x27 at index ".data ++
          (Nat.repr a.length).data ++ " in client id \"".data ++ id ++
          "\"".data)) ∧
    processClientID ⟨⟨ "*.example.com".data⟩⟩
        ⟨Proto.tls, "!!!.example.com".data, []⟩ =
      ⟨ResultCode.error, [],
        some ( "client id check: invalid client id: invalid char \x27!\x27 at index 0 in client id \"!!!\"".data)⟩ := by
  refine ⟨?_, ?_, by decide⟩
  · have h := validateClientID_eq_none_iff id
    simpa [maxClientIDLen] using h
  · intro a c b hdecomp ha hc hl
    subst hdecomp
    exact validateClientID_firstBad a c b ha hc
      (by simpa [maxClientIDLen] using hl)

/-- Witness for claim C4: the three-character candidate cli is accepted by
the validator. -/
theorem validateClientID_charset_witness :
    validateClientID ( "cli".data) = none := by
  have h := validateClientID_charset ( "cli".data) (by decide)
  exact h.1.mpr (by decide)

/-- Claim C5: the validator checks the length bound before the character
set, rejecting every candidate longer than 64 characters with the
too-long diagnostic regardless of its characters; in particular a
wildcard-extracted candidate of length 74 yields the resolver error with
that diagnostic under the invalid-client-id tag. -/
theorem validateClientID_length_first (id label suffix path : Str) :
    (64 < id.length →
      validateClientID id =
        some ( "client id \"".data ++ id ++
          "\" is too long, max: 64".data)) ∧
    (label.length = 74 → '.' ∉ label →
      processClientID ⟨⟨ '*' :: '.' :: suffix⟩⟩
          ⟨Proto.tls, label ++ '.' :: suffix, path⟩ =
        ⟨ResultCode.error, [],
          some ( "client id check: invalid client id: client id \"".data ++
            label ++ "\" is too long, max: 64".data)⟩) := by
  constructor
  · intro h
    exact validateClientID_of_long id (by simpa [maxClientIDLen] using h)
  · intro h74 hdot
    have hne : label ≠ [] := by
      intro habs
      rw [habs] at h74
      simp at h74
    rw [processClientID_wildcard_label suffix label path hne hdot,
      validateClientID_of_long label (by rw [h74]; decide)]
    rfl


theorem extractPath_of_strip (q rest : Str)
    (hq : stripSlash q = dnsQueryPath ++ '/' :: rest) :
    extractPathClientID q =
      (if rest = [] then PathExtract.noIdentity
       else if '/' ∈ rest then PathExtract.extraParts
       else PathExtract.candidate rest) := by
  have hd : dropPfx dnsQueryPath (stripSlash q) = some ( '/' :: rest) := by
    rw [hq]
    exact (dropPfx_eq_some_iff _ _ _).mpr rfl
  unfold extractPathClientID
  rw [hd]
  dsimp only
  rw [if_pos rfl]

theorem stripSlash_id_of_append (seg : Str) (hne : seg ≠ [])
    (hslash : '/' ∉ seg) (x : Str) :
    stripSlash (x ++ seg) = x ++ seg := by
  apply stripSlash_of_getLast_ne
  rw [List.getLast?_append_of_ne_nil x hne]
  intro habs
  exact hslash (List.mem_of_mem_getLast? habs)

theorem stripSlash_shape (a b : Str) (hb : b ≠ []) :
    ∃ y, stripSlash (dnsQueryPath ++ '/' :: (a ++ '/' :: b)) =
      dnsQueryPath ++ '/' :: (a ++ '/' :: y) := by
  obtain ⟨y, c, hyc⟩ := (List.eq_nil_or_concat b).resolve_left hb
  rw [List.concat_eq_append] at hyc
  subst hyc
  by_cases hc : c = '/'
  · subst hc
    refine ⟨y, ?_⟩
    have hform : dnsQueryPath ++ '/' :: (a ++ '/' :: (y ++ [ '/'])) =
        (dnsQueryPath ++ '/' :: (a ++ '/' :: y)) ++ [ '/'] := by
      simp
    rw [hform, stripSlash_concat_slash]
  · refine ⟨y ++ [c], ?_⟩
    apply stripSlash_of_getLast_ne
    have hform : dnsQueryPath ++ '/' :: (a ++ '/' :: (y ++ [c])) =
        (dnsQueryPath ++ '/' :: (a ++ '/' :: y)) ++ [c] := by
      simp
    rw [hform, List.getLast?_concat]
    intro habs
    exact hc (Option.some.inj habs)

/-- Claim C6: the HTTPS path extractor maps the bare dns-query path with
or without trailing slash to no identity (resolution Success with empty
client id), maps the path with one extra segment, with or without
trailing slash, to that segment as candidate (resolution Success with the
segment as client id when it is grammar-valid), and for every path not
ending in a slash, appending one trailing slash yields the same
extraction outcome. -/
theorem extractPath_grammar (conf : ServerConfig) (sni seg p : Str) :
    extractPathClientID ( "/dns-query".data) = PathExtract.noIdentity ∧
    extractPathClientID ( "/dns-query/".data) = PathExtract.noIdentity ∧
    processClientID conf ⟨Proto.https, sni, "/dns-query".data⟩ =
      ⟨ResultCode.success, [], none⟩ ∧
    processClientID conf ⟨Proto.https, sni, "/dns-query/".data⟩ =
      ⟨ResultCode.success, [], none⟩ ∧
    (seg ≠ [] → '/' ∉ seg →
      extractPathClientID ( "/dns-query/".data ++ seg) =
        PathExtract.candidate seg ∧
      extractPathClientID ( "/dns-query/".data ++ seg ++ [ '/']) =
        PathExtract.candidate seg ∧
      (validateClientID seg = none →
        processClientID conf ⟨Proto.https, sni, "/dns-query/".data ++ seg⟩ =
          ⟨ResultCode.success, seg, none⟩)) ∧
    (p.getLast? ≠ some '/' →
      extractPathClientID (p ++ [ '/']) = extractPathClientID p) := by
  refine ⟨rfl, rfl, rfl, rfl, ?_, ?_⟩
  · intro hne hslash
    have hstrip1 : stripSlash ( "/dns-query/".data ++ seg) =
        dnsQueryPath ++ '/' :: seg :=
      stripSlash_id_of_append seg hne hslash ( "/dns-query/".data)
    have hstrip2 : stripSlash ( "/dns-query/".data ++ seg ++ [ '/']) =
        dnsQueryPath ++ '/' :: seg :=
      stripSlash_concat_slash ( "/dns-query/".data ++ seg)
    have he1 := extractPath_of_strip _ seg hstrip1
    have he2 := extractPath_of_strip _ seg hstrip2
    refine ⟨?_, ?_, ?_⟩
    · rw [he1, if_neg hne, if_neg hslash]
    · rw [he2, if_neg hne, if_neg hslash]
    · intro hv
      rw [processClientID_https_eq, he1, if_neg hne, if_neg hslash]
      dsimp only
      rw [hv]
  · intro hp
    unfold extractPathClientID
    rw [stripSlash_concat_slash, stripSlash_of_getLast_ne p hp]

/-- Claim C7: for an HTTPS query, every request path that does not start
with the dns-query segment yields Error with the invalid-path diagnostic,
and every path with more than one segment after the dns-query prefix
yields Error with the extra-parts diagnostic; in both cases the client id
stays empty. -/
theorem processClientID_https_bad_path (conf : ServerConfig)
    (sni path a b : Str) :
    ((∀ t, path ≠ dnsQueryPath ++ t) →
      processClientID conf ⟨Proto.https, sni, path⟩ =
        ⟨ResultCode.error, [],
          some ( "client id check: invalid path \"".data ++ path ++
            "\"".data)⟩) ∧
    (b ≠ [] →
      processClientID conf
          ⟨Proto.https, sni, dnsQueryPath ++ '/' :: (a ++ '/' :: b)⟩ =
        ⟨ResultCode.error, [],
          some ( "client id check: invalid path \"".data ++
            (dnsQueryPath ++ '/' :: (a ++ '/' :: b)) ++
            "\": extra parts".data)⟩) := by
  constructor
  · intro hnp
    have hq : ∀ t, stripSlash path ≠ dnsQueryPath ++ t := by
      intro t habs
      rcases stripSlash_cases path with hcase | hcase
      · rw [hcase] at habs
        exact hnp t habs
      · apply hnp (t ++ [ '/'])
        rw [hcase, habs, List.append_assoc]
    have hdrop : dropPfx dnsQueryPath (stripSlash path) = none :=
      (dropPfx_eq_none_iff _ _).mpr hq
    rw [processClientID_https_eq]
    unfold extractPathClientID
    rw [hdrop]
    rfl
  · intro hb
    obtain ⟨y, hy⟩ := stripSlash_shape a b hb
    rw [processClientID_https_eq, extractPath_of_strip _ _ hy]
    have h1 : ¬(a ++ '/' :: y = []) := by simp
    have h2 : ( '/' : Char) ∈ a ++ '/' :: y := by simp
    rw [if_neg h1, if_pos h2]
    rfl

end DNSForward

namespace DHCP

/-- Claim C10: the reset handler replaces the server configuration with a
fresh zero configuration in which exactly WorkDir, HTTPRegister,
ConfigModified and DBFilePath keep their previous values, every other
configuration field takes its zero value, and fresh v4 and v6 sub-servers
are installed, created from zero configurations carrying only the ICMP
timeout of 1000 on v4 and the server notify callback. -/
theorem handleReset_resets_config (s : Server) :
    (handleReset s).conf.workDir = s.conf.workDir ∧
    (handleReset s).conf.httpRegister = s.conf.httpRegister ∧
    (handleReset s).conf.configModified = s.conf.configModified ∧
    (handleReset s).conf.dbFilePath = s.conf.dbFilePath ∧
    (handleReset s).conf.enabled = ServerConfig.zero.enabled ∧
    (handleReset s).conf.interfaceName = ServerConfig.zero.interfaceName ∧
    (handleReset s).srv4 =
      v4Create { V4ServerConf.zero with
        icmpTimeout := 1000
        notify := s.onNotify } ∧
    (handleReset s).srv6 =
      v6Create { V6ServerConf.zero with notify := s.onNotify } ∧
    (handleReset s).onNotify = s.onNotify :=
  ⟨rfl, rfl, rfl, rfl, rfl, rfl, rfl, rfl, rfl⟩

end DHCP

end AdGuard